import Mathlib

/-!
Shallow embedding of `src/main.py` (doc-backup-git-gdrive-s3): a backup
pipeline that clones repositories, zips them, uploads the archives to a
Google Drive "code" folder, recursively mirrors a Drive "doc" folder tree
to local disk, zips it and uploads it to S3, then cleans up local state.

The remote Drive tree is modelled as a nested inductive (`Entry`), the
local filesystem as lists of file paths and directory paths (`FS`), and
each Python function as a Lean function over these models.
-/

namespace DocBackup

/-! ## Definitions -/

/-! ### Remote data model -/

/-- A Drive entry as returned by `service.files().list`: id, name, mimeType.
A folder entry carries the children that a listing of its id would return
(in the remote store's native order). -/
inductive Entry : Type where
  | mk (id name mimeType : String) (children : List Entry)

def Entry.id : Entry → String
  | .mk i _ _ _ => i

def Entry.name : Entry → String
  | .mk _ n _ _ => n

def Entry.mimeType : Entry → String
  | .mk _ _ m _ => m

def Entry.children : Entry → List Entry
  | .mk _ _ _ cs => cs

/-- Mime type of a Drive folder, tested at `main.py:211`. -/
def folderMime : String := "application/vnd.google-apps.folder"

def documentMime : String := "application/vnd.google-apps.document"

def spreadsheetMime : String := "application/vnd.google-apps.spreadsheet"

def drawingMime : String := "application/vnd.google-apps.drawing"

def presentationMime : String := "application/vnd.google-apps.presentation"

/-- The native-document test of `main.py:214-217` (document, drawing,
presentation, spreadsheet). -/
def isNativeMime (m : String) : Bool :=
  m == documentMime || m == drawingMime || m == presentationMime || m == spreadsheetMime

/-! ### Sorting children by name -/

/-- Comparison used to sort a folder listing: ascending by `name`. -/
def nameLe (a b : Entry) : Bool := decide (a.name ≤ b.name)

/-- Model of `sorted(result, key=lambda k: k['name'])` at `main.py:202`:
a stable sort of the listing by ascending name. -/
def sortByName (l : List Entry) : List Entry := l.mergeSort nameLe

/-! ### Local filesystem model (paths only) -/

/-- The local filesystem as seen through `os.path.isfile`, `os.path.exists`,
`os.makedirs` and file creation: a list of file paths and directory paths. -/
structure FS where
  files : List String
  dirs : List String
deriving DecidableEq

/-- Model of `os.path.isfile` (`main.py:213,219`). -/
def FS.isfile (fs : FS) (p : String) : Bool := fs.files.contains p

/-- Model of `os.path.exists` (`main.py:192`). -/
def FS.pathExists (fs : FS) (p : String) : Bool :=
  fs.files.contains p || fs.dirs.contains p

/-- Writing a (complete) downloaded file to path `p`. -/
def FS.addFile (fs : FS) (p : String) : FS :=
  { fs with files := p :: fs.files }

/-- Model of `os.makedirs` (`main.py:193`). -/
def FS.makedirs (fs : FS) (p : String) : FS :=
  { fs with dirs := p :: fs.dirs }

/-! ### The recursive folder synchronizer (`download_folder_from_drive`)

`syncItems items location fs` runs the per-child loop of
`main.py:206-221` on the already-sorted listing `items`, with
`location` the local prefix ending in `/`. It returns the final
filesystem and the list of destination paths that were downloaded
(each by `download_gdoc_from_drive` or `download_file_from_drive`,
which on success write the file at `location + filename`). -/

def syncItems : List Entry → String → FS → FS × List String
  | [], _, fs => (fs, [])
  | e :: rest, location, fs =>
    if e.mimeType == folderMime then
      -- main.py:212: recursive call to download_folder_from_drive,
      -- whose body is main.py:192-221 inlined here.
      let target := location ++ e.name
      let fs1 := if fs.pathExists target then fs else fs.makedirs target
      let r1 := syncItems (sortByName e.children) (target ++ "/") fs1
      let r2 := syncItems rest location r1.1
      (r2.1, r1.2 ++ r2.2)
    else if !(fs.isfile (location ++ e.name)) && isNativeMime e.mimeType then
      -- main.py:218: download_gdoc_from_drive writes location + filename
      let r2 := syncItems rest location (fs.addFile (location ++ e.name))
      (r2.1, (location ++ e.name) :: r2.2)
    else if !(fs.isfile (location ++ e.name)) then
      -- main.py:220: download_file_from_drive writes location + filename
      let r2 := syncItems rest location (fs.addFile (location ++ e.name))
      (r2.1, (location ++ e.name) :: r2.2)
    else
      -- existing local file: silently skipped, never overwritten
      syncItems rest location fs
termination_by items => sizeOf items
decreasing_by
  · have hp : sizeOf (sortByName e.children) = sizeOf e.children :=
      (List.mergeSort_perm e.children nameLe).sizeOf_eq_sizeOf
    rw [hp]
    cases e with
    | mk i n m cs =>
      simp [Entry.children]
      omega
  · simp
  · simp
  · simp
  · simp

/-- Model of `download_folder_from_drive` (`main.py:182-221`): create the
local target directory if absent, list the remote folder's children, sort
them by name, and run the per-child loop. `children` is the listing the
store returns for the remote folder id. -/
def download_folder_from_drive (children : List Entry) (location folder_name : String)
    (fs : FS) : FS × List String :=
  let target := location ++ folder_name
  let fs1 := if fs.pathExists target then fs else fs.makedirs target
  syncItems (sortByName children) (target ++ "/") fs1

/-- `covered items location fs` says the local filesystem already holds
every file the per-child loop would download for `items` at `location`
(and every directory it would create): each non-folder child's
destination exists as a file, and each folder child's target path exists
with its (sorted) children covered in turn. -/
def covered : List Entry → String → FS → Bool
  | [], _, _ => true
  | e :: rest, location, fs =>
    if e.mimeType == folderMime then
      fs.pathExists (location ++ e.name) &&
        covered (sortByName e.children) (location ++ e.name ++ "/") fs &&
        covered rest location fs
    else
      fs.isfile (location ++ e.name) && covered rest location fs
termination_by items => sizeOf items
decreasing_by
  · have hp : sizeOf (sortByName e.children) = sizeOf e.children :=
      (List.mergeSort_perm e.children nameLe).sizeOf_eq_sizeOf
    rw [hp]
    cases e with
    | mk i n m cs =>
      simp [Entry.children]
      omega
  · simp
  · simp

/-! ### Chunked downloads (`download_file_from_drive`, `download_gdoc_from_drive`)

A byte-level filesystem records file contents, so that "complete" versus
"truncated" is expressible. Each call of `downloader.next_chunk()`
(`main.py:135,171`) either appends a chunk of bytes to the open handle or
raises; on a raise the handle is closed, the partial file is removed with
`os.remove`, and the process exits with status 1 (`main.py:136-139,
172-175`). -/

/-- A filesystem mapping paths to byte contents. -/
structure ByteFS where
  data : List (String × List Nat)

def ByteFS.lookup (fs : ByteFS) (p : String) : Option (List Nat) :=
  (fs.data.find? (fun kv => kv.1 == p)).map (fun kv => kv.2)

/-- Model of `os.remove` (`main.py:138,174`). -/
def ByteFS.remove (fs : ByteFS) (p : String) : ByteFS :=
  ⟨fs.data.filter (fun kv => !(kv.1 == p))⟩

/-- Writing (or truncating to) content `c` at path `p`, as
`io.FileIO(path, 'wb')` followed by writes does. -/
def ByteFS.write (fs : ByteFS) (p : String) (c : List Nat) : ByteFS :=
  ⟨(p, c) :: (fs.remove p).data⟩

/-- One `next_chunk()` outcome: a chunk of bytes arrives, or it raises. -/
inductive ChunkStep : Type where
  | ok (bytes : List Nat)
  | err
deriving DecidableEq

/-- All chunks arrive without raising. -/
def chunksOk : List ChunkStep → Bool
  | [] => true
  | .ok _ :: rest => chunksOk rest
  | .err :: _ => false

/-- The complete remote content: the concatenation of all chunks. -/
def fullBytes : List ChunkStep → List Nat
  | [] => []
  | .ok c :: rest => c ++ fullBytes rest
  | .err :: rest => fullBytes rest

/-- The `while done is False` loop of `main.py:133-141` and
`main.py:169-177`: write each arriving chunk to the open destination
file; on a raise, close the handle, delete the partial file and abort
with exit status 1 (`sys.exit(1)`). Returns the filesystem and
`some code` when the process exited. -/
def dlLoop (path : String) : List ChunkStep → List Nat → ByteFS → ByteFS × Option Nat
  | [], _, fs => (fs, none)
  | .ok c :: rest, acc, fs => dlLoop path rest (acc ++ c) (fs.write path (acc ++ c))
  | .err :: _, _, fs => (fs.remove path, some 1)

/-- Model of `download_file_from_drive` (`main.py:120-142`): open
`location + filename` for writing (truncating it to empty) and run the
chunk loop on the `get_media` stream. -/
def download_file_from_drive (location filename : String) (chunks : List ChunkStep)
    (fs : ByteFS) : ByteFS × Option Nat :=
  dlLoop (location ++ filename) chunks [] (fs.write (location ++ filename) [])

/-- Model of `download_gdoc_from_drive` (`main.py:145-178`): identical
chunk loop on the `export_media` stream of the converted document. -/
def download_gdoc_from_drive (mime_type location filename : String) (chunks : List ChunkStep)
    (fs : ByteFS) : ByteFS × Option Nat :=
  dlLoop (location ++ filename) chunks [] (fs.write (location ++ filename) [])

/-! ### The export mapping of `download_gdoc_from_drive` -/

/-- The mime-type mapping of `main.py:154-162`: four fixed cases; every
other source type leaves `new_mime_type` as the empty string. -/
def exportMimeType (mime_type : String) : String :=
  if mime_type == documentMime then
    "application/vnd.openxmlformats-officedocument.wordprocessingml.document"
  else if mime_type == spreadsheetMime then
    "application/vnd.openxmlformats-officedocument.spreadsheetml.sheet"
  else if mime_type == drawingMime then
    "image/jpeg"
  else if mime_type == presentationMime then
    "application/vnd.openxmlformats-officedocument.presentationml.presentation"
  else
    ""

/-- An export request as built by `files().export_media`. -/
structure ExportRequest where
  fileId : String
  mimeType : String
deriving DecidableEq

/-- The `export_media` request constructed at `main.py:164`. -/
def export_media_request (file_id mime_type : String) : ExportRequest :=
  ⟨file_id, exportMimeType mime_type⟩

/-! ### Timestamps and the code-archive upload (`upload_file_to_drive`) -/

/-- A clock reading, as produced by `datetime.datetime.now()`. -/
structure DateTime where
  year : Nat
  month : Nat
  day : Nat
  hour : Nat
  minute : Nat
  second : Nat

/-- The decimal digit character of `n % 10`. -/
def digitChar (n : Nat) : Char := Char.ofNat (48 + n % 10)

/-- A two-digit zero-padded `strftime` field (`%m %d %H %M %S`). -/
def pad2 (n : Nat) : String := String.mk [digitChar (n / 10), digitChar n]

/-- The four-digit zero-padded year field `%Y`. -/
def pad4 (n : Nat) : String :=
  String.mk [digitChar (n / 1000), digitChar (n / 100), digitChar (n / 10), digitChar n]

/-- Model of `now.strftime("%Y%m%d%H%M%S")` (`main.py:104`). -/
def strftimeYmdHMS (d : DateTime) : String :=
  pad4 d.year ++ pad2 d.month ++ pad2 d.day ++ pad2 d.hour ++ pad2 d.minute ++ pad2 d.second

/-- The archive name built inside `upload_file_to_drive`
(`main.py:102-105`): prefix `code_v`, then the timestamp, then the repo
name, then `.zip`. -/
def codeArchiveName (now : DateTime) (name : String) : String :=
  "code_v" ++ strftimeYmdHMS now ++ name ++ ".zip"

/-- Observable outcome of one `upload_file_to_drive` call: the Python
return value, the parent folder and name of the remote entry created,
and the console lines printed. -/
structure DriveUpload where
  returned : Option String
  parent : String
  uploadedName : String
  printed : List String
deriving DecidableEq

/-- Model of `upload_file_to_drive` (`main.py:89-117`): builds the
timestamped name from the clock value `now` at the call, creates the
remote file under `folder_id` (the create call yields `created_id`),
prints the progress line and the success line naming the created id —
and returns no value (Python `None`). -/
def upload_file_to_drive (folder_id path name : String) (now : DateTime)
    (created_id : String) : DriveUpload :=
  { returned := none
    parent := folder_id
    uploadedName := codeArchiveName now name
    printed :=
      ["Uploading file " ++ path ++ "...",
       codeArchiveName now name ++ " uploaded with succes. File ID: " ++ created_id] }

/-- A repository descriptor from `repos.json`. -/
structure Repo where
  url : String
  name : String
  branch : String

/-- The repository loop of `__main__` (`main.py:289-291`): for each
descriptor in order, create the zip named `<name>.zip`, then upload it
to the code folder. `datetime.datetime.now()` is sampled inside
`upload_file_to_drive`, so the `k`-th uploaded archive is named from
the clock value `clock k` at its own upload step, not from any earlier
pipeline instant; `ids k` is the id the create call yields. Returns the
names of the uploaded archives in order. -/
def repoUploadNames (clock : Nat → DateTime) (folder_id : String) (ids : Nat → String) :
    List Repo → Nat → List String
  | [], _ => []
  | r :: rest, k =>
    (upload_file_to_drive folder_id (r.name ++ ".zip") r.name (clock k) (ids k)).uploadedName
      :: repoUploadNames clock folder_id ids rest (k + 1)

/-! ### The S3 upload (`upload_file_to_s3`) -/

/-- Outcome of the boto3 `upload_file` call (`main.py:247`). -/
inductive S3CallResult : Type where
  | success
  | fileNotFoundError
  | noCredentialsError
  | otherError (msg : String)
deriving DecidableEq

/-- Model of `upload_file_to_s3` (`main.py:234-255`): returns `True` on
success and `False` for the two caught exception types
(`FileNotFoundError`, `NoCredentialsError`); every other exception
propagates out of the function (`Except.error`). -/
def upload_file_to_s3 (r : S3CallResult) : Except String Bool :=
  match r with
  | .success => .ok true
  | .fileNotFoundError => .ok false
  | .noCredentialsError => .ok false
  | .otherError msg => .error msg

/-! ### Local cleanup (`clear_local_folder`) -/

/-- Model of Python `s.endswith(suf)`: the characters of `suf` are a
suffix of the characters of `s`. -/
def pyEndsWith (s suf : String) : Bool := suf.data.isSuffixOf s.data

/-- Whether the loop body of `clear_local_folder` (`main.py:264-268`)
removes directory entry `f`: entries ending in `.zip` via `os.remove`,
and otherwise entries whose name ends with `project_name` via
`shutil.rmtree`. -/
def clearsEntry (project_name f : String) : Bool :=
  if pyEndsWith f ".zip" then true
  else if pyEndsWith f project_name then true
  else false

/-- Model of `clear_local_folder` (`main.py:258-268`) over the
`os.listdir(".")` listing: the entries it removes, and the entries that
survive in the working directory. -/
def clear_local_folder (entries : List String) (project_name : String) :
    List String × List String :=
  (entries.filter (fun f => clearsEntry project_name f),
   entries.filter (fun f => !(clearsEntry project_name f)))

/-! ### Clearing the remote code folder (`clear_folder`) -/

/-- A remote file as seen by `clear_folder`: id and name. -/
structure RemoteFile where
  id : String
  name : String
deriving DecidableEq

/-- A single `files().list` call (`main.py:80-82`), with no pagination
loop: the store returns at most one page — the first `page_size` of the
folder's children. -/
def listOnePage (children : List RemoteFile) (page_size : Nat) : List RemoteFile :=
  children.take page_size

/-- Model of `clear_folder` (`main.py:69-86`): delete, by id, each file
of the single listing page. Returns the children that remain in the
folder afterwards. -/
def clear_folder (children : List RemoteFile) (page_size : Nat) : List RemoteFile :=
  children.filter
    (fun c => !(((listOnePage children page_size).map RemoteFile.id).contains c.id))

/-! ## Theorems -/

/-! ### Basic facts about the models -/

theorem sortByName_perm (l : List Entry) : (sortByName l).Perm l :=
  List.mergeSort_perm l nameLe

theorem sizeOf_sortByName_children_lt (e : Entry) (rest : List Entry) :
    sizeOf (sortByName e.children) < sizeOf (e :: rest) := by
  have hp : sizeOf (sortByName e.children) = sizeOf e.children :=
    (List.mergeSort_perm e.children nameLe).sizeOf_eq_sizeOf
  rw [hp]
  cases e with
  | mk i n m cs =>
    simp [Entry.children]
    omega

theorem sizeOf_rest_lt (e : Entry) (rest : List Entry) :
    sizeOf rest < sizeOf (e :: rest) := by
  simp

/-- Structural induction principle following the recursion of `syncItems`:
to prove a property of every listing, prove it for the empty listing and
for a cons assuming it for the (sorted) children of the head and for the
tail, at every location and filesystem. -/
theorem syncInduction (motive : List Entry → String → FS → Prop)
    (nil : ∀ location fs, motive [] location fs)
    (cons : ∀ e rest,
      (∀ location fs, motive (sortByName e.children) location fs) →
      (∀ location fs, motive rest location fs) →
      ∀ location fs, motive (e :: rest) location fs) :
    ∀ items location fs, motive items location fs := by
  have key : ∀ n items, sizeOf items ≤ n → ∀ location fs, motive items location fs := by
    intro n
    induction n with
    | zero =>
      intro items h
      cases items with
      | nil => exact nil
      | cons e rest =>
        simp at h
    | succ n ih =>
      intro items h
      cases items with
      | nil => exact nil
      | cons e rest =>
        apply cons e rest
        · intro location fs
          apply ih
          have h1 := sizeOf_sortByName_children_lt e rest
          omega
        · intro location fs
          apply ih
          have h1 := sizeOf_rest_lt e rest
          omega
  intro items
  exact key (sizeOf items) items le_rfl

/-! ### Unfolding equations for `syncItems` -/

theorem syncItems_nil (location : String) (fs : FS) :
    syncItems [] location fs = (fs, []) := by
  simp [syncItems]

theorem syncItems_cons_folder (e : Entry) (rest : List Entry) (location : String) (fs : FS)
    (hm : (e.mimeType == folderMime) = true) :
    syncItems (e :: rest) location fs =
      (let fs1 := if fs.pathExists (location ++ e.name) then fs
                  else fs.makedirs (location ++ e.name)
       let r1 := syncItems (sortByName e.children) (location ++ e.name ++ "/") fs1
       let r2 := syncItems rest location r1.1
       (r2.1, r1.2 ++ r2.2)) := by
  rw [syncItems]
  simp [hm]

theorem syncItems_cons_download (e : Entry) (rest : List Entry) (location : String) (fs : FS)
    (hm : (e.mimeType == folderMime) = false) (hf : fs.isfile (location ++ e.name) = false) :
    syncItems (e :: rest) location fs =
      (let r2 := syncItems rest location (fs.addFile (location ++ e.name))
       (r2.1, (location ++ e.name) :: r2.2)) := by
  rw [syncItems]
  by_cases hnat : isNativeMime e.mimeType = true
  · simp [hm, hf, hnat]
  · simp [hm, hf, hnat]

theorem syncItems_cons_skip (e : Entry) (rest : List Entry) (location : String) (fs : FS)
    (hm : (e.mimeType == folderMime) = false) (hf : fs.isfile (location ++ e.name) = true) :
    syncItems (e :: rest) location fs = syncItems rest location fs := by
  rw [syncItems]
  simp [hm, hf]

theorem FS.isfile_iff (fs : FS) (p : String) : fs.isfile p = true ↔ p ∈ fs.files := by
  simp [FS.isfile, List.contains, List.elem_iff]

theorem FS.pathExists_iff (fs : FS) (p : String) :
    fs.pathExists p = true ↔ p ∈ fs.files ∨ p ∈ fs.dirs := by
  simp [FS.pathExists, List.contains, List.elem_iff]

/-! ### The synchronizer only adds local state (files and directories) -/

theorem syncItems_mono (items : List Entry) (location : String) (fs : FS) :
    (∀ p, p ∈ fs.files → p ∈ (syncItems items location fs).1.files) ∧
    (∀ p, p ∈ fs.dirs → p ∈ (syncItems items location fs).1.dirs) := by
  induction items, location, fs using syncInduction with
  | nil location fs => simp [syncItems_nil]
  | cons e rest ihc ihr location fs =>
    by_cases hm : (e.mimeType == folderMime) = true
    · rw [syncItems_cons_folder e rest location fs hm]
      simp only []
      constructor
      · intro p hp
        apply (ihr location _).1
        apply (ihc (location ++ e.name ++ "/") _).1
        by_cases he : fs.pathExists (location ++ e.name) = true
        · simp [he, hp]
        · simp only [he]
          simp [FS.makedirs, hp]
      · intro p hp
        apply (ihr location _).2
        apply (ihc (location ++ e.name ++ "/") _).2
        by_cases he : fs.pathExists (location ++ e.name) = true
        · simp [he, hp]
        · simp only [he]
          simp [FS.makedirs, hp]
    · rw [Bool.not_eq_true] at hm
      by_cases hf : fs.isfile (location ++ e.name) = true
      · rw [syncItems_cons_skip e rest location fs hm hf]
        exact ihr location fs
      · rw [Bool.not_eq_true] at hf
        rw [syncItems_cons_download e rest location fs hm hf]
        simp only []
        constructor
        · intro p hp
          apply (ihr location _).1
          simp [FS.addFile, hp]
        · intro p hp
          apply (ihr location _).2
          simp [FS.addFile, hp]

theorem syncItems_isfile_mono (items : List Entry) (location : String) (fs : FS)
    (p : String) (h : fs.isfile p = true) :
    (syncItems items location fs).1.isfile p = true := by
  rw [FS.isfile_iff] at h ⊢
  exact (syncItems_mono items location fs).1 p h

theorem syncItems_pathExists_mono (items : List Entry) (location : String) (fs : FS)
    (p : String) (h : fs.pathExists p = true) :
    (syncItems items location fs).1.pathExists p = true := by
  rw [FS.pathExists_iff] at h ⊢
  rcases h with h | h
  · exact Or.inl ((syncItems_mono items location fs).1 p h)
  · exact Or.inr ((syncItems_mono items location fs).2 p h)

/-! ### Coverage lemmas -/

theorem covered_nil (location : String) (fs : FS) : covered [] location fs = true := by
  simp [covered]

theorem covered_cons_folder (e : Entry) (rest : List Entry) (location : String) (fs : FS)
    (hm : (e.mimeType == folderMime) = true) :
    covered (e :: rest) location fs =
      (fs.pathExists (location ++ e.name) &&
        covered (sortByName e.children) (location ++ e.name ++ "/") fs &&
        covered rest location fs) := by
  rw [covered]
  simp [hm]

theorem covered_cons_file (e : Entry) (rest : List Entry) (location : String) (fs : FS)
    (hm : (e.mimeType == folderMime) = false) :
    covered (e :: rest) location fs =
      (fs.isfile (location ++ e.name) && covered rest location fs) := by
  rw [covered]
  simp [hm]

/-- Coverage is preserved when the filesystem only grows. -/
theorem covered_mono (items : List Entry) (location : String) (fs fs2 : FS)
    (hfiles : ∀ p, p ∈ fs.files → p ∈ fs2.files)
    (hdirs : ∀ p, p ∈ fs.dirs → p ∈ fs2.dirs)
    (h : covered items location fs = true) :
    covered items location fs2 = true := by
  induction items, location, fs using syncInduction generalizing fs2 with
  | nil location fs => simp [covered_nil]
  | cons e rest ihc ihr location fs =>
    by_cases hm : (e.mimeType == folderMime) = true
    · rw [covered_cons_folder e rest location fs hm] at h
      rw [covered_cons_folder e rest location fs2 hm]
      simp only [Bool.and_eq_true] at h ⊢
      refine ⟨⟨?_, ?_⟩, ?_⟩
      · rw [FS.pathExists_iff] at h ⊢
        rcases h.1.1 with hh | hh
        · exact Or.inl (hfiles _ hh)
        · exact Or.inr (hdirs _ hh)
      · exact ihc _ _ fs2 hfiles hdirs h.1.2
      · exact ihr _ _ fs2 hfiles hdirs h.2
    · rw [Bool.not_eq_true] at hm
      rw [covered_cons_file e rest location fs hm] at h
      rw [covered_cons_file e rest location fs2 hm]
      simp only [Bool.and_eq_true] at h ⊢
      refine ⟨?_, ihr _ _ fs2 hfiles hdirs h.2⟩
      rw [FS.isfile_iff] at h ⊢
      exact hfiles _ h.1

/-- After one pass of the per-child loop, the resulting filesystem covers
the listing: every destination the loop would consider now exists. -/
theorem syncItems_covered (items : List Entry) (location : String) (fs : FS) :
    covered items location (syncItems items location fs).1 = true := by
  induction items, location, fs using syncInduction with
  | nil location fs => simp [covered_nil]
  | cons e rest ihc ihr location fs =>
    by_cases hm : (e.mimeType == folderMime) = true
    · rw [syncItems_cons_folder e rest location fs hm]
      simp only []
      rw [covered_cons_folder e rest location _ hm]
      simp only [Bool.and_eq_true]
      refine ⟨⟨?_, ?_⟩, ?_⟩
      · -- the target directory exists after the mkdir step and survives both runs
        apply syncItems_pathExists_mono
        apply syncItems_pathExists_mono
        by_cases he : fs.pathExists (location ++ e.name) = true
        · simp [he]
        · simp only [he]
          simp [FS.pathExists, FS.makedirs, List.contains, List.elem_iff]
      · -- the children are covered after the child pass, and survive the tail pass
        apply covered_mono _ _ _ _
          (fun p hp => (syncItems_mono rest location _).1 p hp)
          (fun p hp => (syncItems_mono rest location _).2 p hp)
        exact ihc (location ++ e.name ++ "/") _
      · exact ihr location _
    · rw [Bool.not_eq_true] at hm
      by_cases hf : fs.isfile (location ++ e.name) = true
      · rw [syncItems_cons_skip e rest location fs hm hf]
        rw [covered_cons_file e rest location _ hm]
        simp only [Bool.and_eq_true]
        exact ⟨syncItems_isfile_mono rest location fs _ hf, ihr location fs⟩
      · rw [Bool.not_eq_true] at hf
        rw [syncItems_cons_download e rest location fs hm hf]
        simp only []
        rw [covered_cons_file e rest location _ hm]
        simp only [Bool.and_eq_true]
        constructor
        · apply syncItems_isfile_mono
          simp [FS.isfile, FS.addFile, List.contains, List.elem_iff]
        · exact ihr location _

/-- On a filesystem that already covers the listing, the per-child loop
downloads nothing and changes nothing. -/
theorem syncItems_of_covered (items : List Entry) (location : String) (fs : FS)
    (h : covered items location fs = true) :
    syncItems items location fs = (fs, []) := by
  induction items, location, fs using syncInduction with
  | nil location fs => simp [syncItems_nil]
  | cons e rest ihc ihr location fs =>
    by_cases hm : (e.mimeType == folderMime) = true
    · rw [covered_cons_folder e rest location fs hm] at h
      simp only [Bool.and_eq_true] at h
      rw [syncItems_cons_folder e rest location fs hm]
      simp only [h.1.1, if_true]
      rw [ihc _ _ h.1.2]
      simp only []
      rw [ihr _ _ h.2]
      simp
    · rw [Bool.not_eq_true] at hm
      rw [covered_cons_file e rest location fs hm] at h
      simp only [Bool.and_eq_true] at h
      rw [syncItems_cons_skip e rest location fs hm h.1]
      exact ihr _ _ h.2

/-- C1: folder synchronization is idempotent. For every remote folder
listing left unchanged between runs, running `download_folder_from_drive`
a second time against the local tree produced by the first run downloads
zero additional files and leaves the local tree unchanged, because a
child file (plain or native-document) is downloaded only when no local
file of that name already exists, and existing local files are never
overwritten. -/
theorem folder_sync_idempotent (children : List Entry) (location folder_name : String)
    (fs : FS) :
    download_folder_from_drive children location folder_name
        (download_folder_from_drive children location folder_name fs).1
      = ((download_folder_from_drive children location folder_name fs).1, []) := by
  unfold download_folder_from_drive
  simp only []
  have ha :
      (syncItems (sortByName children) (location ++ folder_name ++ "/")
        (if fs.pathExists (location ++ folder_name) then fs
         else fs.makedirs (location ++ folder_name))).1.pathExists
          (location ++ folder_name) = true := by
    apply syncItems_pathExists_mono
    by_cases he : fs.pathExists (location ++ folder_name) = true
    · simp [he]
    · simp only [he, if_false]
      simp [FS.pathExists, FS.makedirs, List.contains, List.elem_iff]
  rw [if_pos ha]
  exact syncItems_of_covered _ _ _ (syncItems_covered _ _ _)

/-- C3: for every remote folder and every order in which the remote store
returns its children, `download_folder_from_drive` visits the sibling
entries in ascending order of their `name` field: it runs the per-child
loop on `sortByName children`, which is a permutation of the listing
whose names are pairwise ascending. -/
theorem siblings_visited_in_name_order (children : List Entry)
    (location folder_name : String) (fs : FS) :
    download_folder_from_drive children location folder_name fs
      = syncItems (sortByName children) (location ++ folder_name ++ "/")
          (if fs.pathExists (location ++ folder_name) then fs
           else fs.makedirs (location ++ folder_name))
    ∧ List.Pairwise (fun a b : Entry => a.name ≤ b.name) (sortByName children)
    ∧ (sortByName children).Perm children := by
  refine ⟨rfl, ?_, sortByName_perm children⟩
  have h : (children.mergeSort nameLe).Pairwise (fun a b => nameLe a b = true) :=
    List.sorted_mergeSort
      (fun a b c hab hbc => by
        simp only [nameLe, decide_eq_true_eq] at hab hbc ⊢
        exact le_trans hab hbc)
      (fun a b => by
        simp only [nameLe]
        rcases le_total a.name b.name with h | h
        · simp [h]
        · simp [h])
      children
  exact h.imp (fun hab => by simpa [nameLe, decide_eq_true_eq] using hab)

/-! ### Downloads are fresh paths, hence never duplicated -/

/-- Every path the per-child loop downloads was absent as a local file
when the loop started. -/
theorem syncItems_dl_fresh (items : List Entry) (location : String) (fs : FS) :
    ∀ p, p ∈ (syncItems items location fs).2 → p ∉ fs.files := by
  induction items, location, fs using syncInduction with
  | nil location fs => simp [syncItems_nil]
  | cons e rest ihc ihr location fs =>
    intro p hp
    by_cases hm : (e.mimeType == folderMime) = true
    · rw [syncItems_cons_folder e rest location fs hm] at hp
      simp only [List.mem_append] at hp
      rcases hp with hp | hp
      · have := ihc _ _ p hp
        by_cases he : fs.pathExists (location ++ e.name) = true
        · simp only [he, if_true] at this
          exact this
        · simp only [he, if_false] at this
          simpa [FS.makedirs] using this
      · intro hmem
        apply ihr _ _ p hp
        have h1 :
            ∀ q, q ∈ fs.files →
              q ∈ (syncItems (sortByName e.children) (location ++ e.name ++ "/")
                (if fs.pathExists (location ++ e.name) then fs
                 else fs.makedirs (location ++ e.name))).1.files := by
          intro q hq
          apply (syncItems_mono _ _ _).1
          by_cases he : fs.pathExists (location ++ e.name) = true
          · simp [he, hq]
          · simp only [he, if_false]
            simpa [FS.makedirs] using hq
        exact h1 p hmem
    · rw [Bool.not_eq_true] at hm
      by_cases hf : fs.isfile (location ++ e.name) = true
      · rw [syncItems_cons_skip e rest location fs hm hf] at hp
        exact ihr _ _ p hp
      · rw [Bool.not_eq_true] at hf
        rw [syncItems_cons_download e rest location fs hm hf] at hp
        simp only [List.mem_cons] at hp
        rcases hp with hp | hp
        · subst hp
          intro hmem
          rw [← FS.isfile_iff] at hmem
          rw [hmem] at hf
          cases hf
        · intro hmem
          apply ihr _ _ p hp
          simp [FS.addFile, hmem]

/-- Every path the per-child loop downloads is a local file afterwards. -/
theorem syncItems_dl_in_files (items : List Entry) (location : String) (fs : FS) :
    ∀ p, p ∈ (syncItems items location fs).2 → p ∈ (syncItems items location fs).1.files := by
  induction items, location, fs using syncInduction with
  | nil location fs => simp [syncItems_nil]
  | cons e rest ihc ihr location fs =>
    intro p hp
    by_cases hm : (e.mimeType == folderMime) = true
    · rw [syncItems_cons_folder e rest location fs hm] at hp ⊢
      simp only [List.mem_append] at hp
      simp only []
      rcases hp with hp | hp
      · exact (syncItems_mono rest location _).1 p (ihc _ _ p hp)
      · exact ihr _ _ p hp
    · rw [Bool.not_eq_true] at hm
      by_cases hf : fs.isfile (location ++ e.name) = true
      · rw [syncItems_cons_skip e rest location fs hm hf] at hp ⊢
        exact ihr _ _ p hp
      · rw [Bool.not_eq_true] at hf
        rw [syncItems_cons_download e rest location fs hm hf] at hp ⊢
        simp only [List.mem_cons] at hp
        simp only []
        rcases hp with hp | hp
        · subst hp
          apply (syncItems_mono rest location _).1
          simp [FS.addFile]
        · exact ihr _ _ p hp

/-- The list of downloaded destination paths of one pass has no
duplicates: a path, once downloaded, is never downloaded again. -/
theorem syncItems_dl_nodup (items : List Entry) (location : String) (fs : FS) :
    ((syncItems items location fs).2).Nodup := by
  induction items, location, fs using syncInduction with
  | nil location fs => simp [syncItems_nil]
  | cons e rest ihc ihr location fs =>
    by_cases hm : (e.mimeType == folderMime) = true
    · rw [syncItems_cons_folder e rest location fs hm]
      simp only []
      apply List.Nodup.append (ihc _ _) (ihr _ _)
      intro p hp1 hp2
      exact syncItems_dl_fresh rest location _ p hp2 (syncItems_dl_in_files _ _ _ p hp1)
    · rw [Bool.not_eq_true] at hm
      by_cases hf : fs.isfile (location ++ e.name) = true
      · rw [syncItems_cons_skip e rest location fs hm hf]
        exact ihr _ _
      · rw [Bool.not_eq_true] at hf
        rw [syncItems_cons_download e rest location fs hm hf]
        simp only []
        rw [List.nodup_cons]
        refine ⟨?_, ihr _ _⟩
        intro hmem
        apply syncItems_dl_fresh rest location _ _ hmem
        simp [FS.addFile]

/-- C10: for every remote folder listing, `download_folder_from_drive`
writes at most one local file per destination path: once the first entry
of a (duplicated) name has been downloaded to `location + filename`,
every later same-named sibling fails the `not os.path.isfile` guard and
is silently skipped, so duplicate-named remote files collapse into a
single local file. -/
theorem duplicate_names_collapse (children : List Entry) (location folder_name : String)
    (fs : FS) :
    ((download_folder_from_drive children location folder_name fs).2).Nodup
    ∧ ∀ p, ((download_folder_from_drive children location folder_name fs).2).count p ≤ 1 := by
  have h : ((download_folder_from_drive children location folder_name fs).2).Nodup :=
    syncItems_dl_nodup _ _ _
  exact ⟨h, fun p => List.nodup_iff_count_le_one.mp h p⟩

/-! ### Chunked-download lemmas -/

theorem ByteFS.lookup_write_self (fs : ByteFS) (p : String) (c : List Nat) :
    (fs.write p c).lookup p = some c := by
  simp [ByteFS.write, ByteFS.lookup, List.find?]

theorem ByteFS.lookup_remove_self (fs : ByteFS) (p : String) :
    (fs.remove p).lookup p = none := by
  simp only [ByteFS.remove, ByteFS.lookup]
  rw [List.find?_eq_none.mpr]
  · rfl
  · intro kv hkv
    have := List.of_mem_filter hkv
    simpa using this

theorem ByteFS.remove_write_self (fs : ByteFS) (p : String) (c : List Nat) :
    (fs.write p c).remove p = fs.remove p := by
  simp only [ByteFS.write, ByteFS.remove, List.filter]
  simp [List.filter_filter]

theorem ByteFS.write_write_self (fs : ByteFS) (p : String) (c d : List Nat) :
    (fs.write p c).write p d = fs.write p d := by
  show ByteFS.mk ((p, d) :: ((fs.write p c).remove p).data)
      = ByteFS.mk ((p, d) :: (fs.remove p).data)
  rw [ByteFS.remove_write_self]

theorem dlLoop_spec (path : String) (chunks : List ChunkStep) (acc : List Nat) (fs : ByteFS)
    (hacc : fs.lookup path = some acc)
    (hrem : ∀ c, (fs.write path c).remove path = fs.remove path) :
    (chunksOk chunks = true →
      dlLoop path chunks acc fs = (fs.write path (acc ++ fullBytes chunks), none)
        ∨ dlLoop path chunks acc fs = (fs, none) ∧ fullBytes chunks = []) ∧
    (chunksOk chunks = false →
      (dlLoop path chunks acc fs).2 = some 1 ∧
      (dlLoop path chunks acc fs).1.lookup path = none) := by
  induction chunks generalizing acc fs with
  | nil =>
    constructor
    · intro _
      right
      exact ⟨rfl, rfl⟩
    · intro h
      simp [chunksOk] at h
  | cons step rest ih =>
    cases step with
    | ok c =>
      have hw : (fs.write path (acc ++ c)).lookup path = some (acc ++ c) :=
        ByteFS.lookup_write_self fs path (acc ++ c)
      have hrem2 : ∀ d, ((fs.write path (acc ++ c)).write path d).remove path
          = (fs.write path (acc ++ c)).remove path := fun d =>
        ByteFS.remove_write_self _ path d
      have ihh := ih (acc ++ c) (fs.write path (acc ++ c)) hw hrem2
      constructor
      · intro hok
        simp only [chunksOk] at hok
        rcases ihh.1 hok with h | ⟨h, hfb⟩
        · left
          simp only [dlLoop, h, fullBytes, ByteFS.write_write_self]
          simp [List.append_assoc]
        · left
          simp only [dlLoop, h]
          simp [fullBytes, hfb]
      · intro hbad
        simp only [chunksOk] at hbad
        have := ihh.2 hbad
        simpa [dlLoop] using this
    | err =>
      constructor
      · intro hok
        simp [chunksOk] at hok
      · intro _
        refine ⟨rfl, ?_⟩
        simp only [dlLoop]
        exact ByteFS.lookup_remove_self fs path

/-- C2: for every chunked download (plain `download_file_from_drive` or
export `download_gdoc_from_drive`), if any chunk raises, the partially
written destination file at `location + filename` is deleted and the
call aborts with exit status 1 (non-zero); if no chunk raises, the
destination file holds the complete remote content. After any download
the destination file is either complete or absent, never
truncated-but-present. -/
theorem chunked_download_no_partial_file (location filename : String)
    (chunks : List ChunkStep) (fs : ByteFS) :
    ((chunksOk chunks = false →
        (download_file_from_drive location filename chunks fs).2 = some 1 ∧
        (download_file_from_drive location filename chunks fs).1.lookup
          (location ++ filename) = none) ∧
      (chunksOk chunks = true →
        (download_file_from_drive location filename chunks fs).2 = none ∧
        (download_file_from_drive location filename chunks fs).1.lookup
          (location ++ filename) = some (fullBytes chunks))) ∧
    (∀ mime_type,
      (chunksOk chunks = false →
        (download_gdoc_from_drive mime_type location filename chunks fs).2 = some 1 ∧
        (download_gdoc_from_drive mime_type location filename chunks fs).1.lookup
          (location ++ filename) = none) ∧
      (chunksOk chunks = true →
        (download_gdoc_from_drive mime_type location filename chunks fs).2 = none ∧
        (download_gdoc_from_drive mime_type location filename chunks fs).1.lookup
          (location ++ filename) = some (fullBytes chunks))) := by
  have key :
      (chunksOk chunks = false →
        (dlLoop (location ++ filename) chunks [] (fs.write (location ++ filename) [])).2
            = some 1 ∧
        (dlLoop (location ++ filename) chunks []
            (fs.write (location ++ filename) [])).1.lookup (location ++ filename) = none) ∧
      (chunksOk chunks = true →
        (dlLoop (location ++ filename) chunks [] (fs.write (location ++ filename) [])).2
            = none ∧
        (dlLoop (location ++ filename) chunks []
            (fs.write (location ++ filename) [])).1.lookup (location ++ filename)
            = some (fullBytes chunks)) := by
    have hs := dlLoop_spec (location ++ filename) chunks []
      (fs.write (location ++ filename) [])
      (ByteFS.lookup_write_self fs _ [])
      (fun c => ByteFS.remove_write_self (fs.write (location ++ filename) []) _ c)
    constructor
    · intro hbad
      exact hs.2 hbad
    · intro hok
      rcases hs.1 hok with h | ⟨h, hfb⟩
      · rw [h]
        refine ⟨rfl, ?_⟩
        simp only [List.nil_append]
        exact ByteFS.lookup_write_self _ _ _
      · rw [h, hfb]
        exact ⟨rfl, ByteFS.lookup_write_self _ _ _⟩
  exact ⟨key, fun _ => key⟩

/-- Witness for C2 at concrete chunk streams: a stream whose second
chunk raises aborts with exit status 1 and leaves no file, and a fully
successful stream leaves the complete content. -/
theorem chunked_download_no_partial_file_witness :
    ((download_file_from_drive "./doc/" "a.txt" [ChunkStep.ok [7], ChunkStep.err] ⟨[]⟩).2
        = some 1 ∧
      (download_file_from_drive "./doc/" "a.txt" [ChunkStep.ok [7], ChunkStep.err]
          ⟨[]⟩).1.lookup ("./doc/" ++ "a.txt") = none) ∧
    ((download_file_from_drive "./doc/" "a.txt" [ChunkStep.ok [7], ChunkStep.ok [8]]
          ⟨[]⟩).2 = none ∧
      (download_file_from_drive "./doc/" "a.txt" [ChunkStep.ok [7], ChunkStep.ok [8]]
          ⟨[]⟩).1.lookup ("./doc/" ++ "a.txt")
        = some (fullBytes [ChunkStep.ok [7], ChunkStep.ok [8]])) :=
  ⟨(chunked_download_no_partial_file "./doc/" "a.txt" [ChunkStep.ok [7], ChunkStep.err]
      ⟨[]⟩).1.1 (by decide),
   (chunked_download_no_partial_file "./doc/" "a.txt" [ChunkStep.ok [7], ChunkStep.ok [8]]
      ⟨[]⟩).1.2 (by decide)⟩

/-! ### The export mapping -/

/-- C6: `download_gdoc_from_drive` maps the four native source types
fixedly (editable document to the word-processor format, spreadsheet to
the spreadsheet format, drawing to JPEG, presentation to the
presentation format); for every other source mimeType it constructs the
`export_media` request with an empty target mime string instead of
failing loudly with an explicit unsupported-export-type error. -/
theorem gdoc_export_mapping :
    exportMimeType documentMime
        = "application/vnd.openxmlformats-officedocument.wordprocessingml.document"
    ∧ exportMimeType spreadsheetMime
        = "application/vnd.openxmlformats-officedocument.spreadsheetml.sheet"
    ∧ exportMimeType drawingMime = "image/jpeg"
    ∧ exportMimeType presentationMime
        = "application/vnd.openxmlformats-officedocument.presentationml.presentation"
    ∧ ∀ file_id mime_type, mime_type ≠ documentMime → mime_type ≠ spreadsheetMime →
        mime_type ≠ drawingMime → mime_type ≠ presentationMime →
        export_media_request file_id mime_type = ⟨file_id, ""⟩ := by
  refine ⟨rfl, rfl, rfl, rfl, ?_⟩
  intro file_id mime_type h1 h2 h3 h4
  simp [export_media_request, exportMimeType, h1, h2, h3, h4]

/-- Witness for C6 at the unmapped native-ish type `application/pdf`:
the export request is built with an empty target mime string. -/
theorem gdoc_export_mapping_witness :
    export_media_request "file9" "application/pdf" = ⟨"file9", ""⟩ :=
  gdoc_export_mapping.2.2.2.2 "file9" "application/pdf"
    (by decide) (by decide) (by decide) (by decide)

/-! ### The Drive upload and its return value -/

/-- C7 counterexample: at a concrete successful call, the value
`upload_file_to_drive` returns is `none` (Python `None`), not the
identifier of the newly created remote entry. -/
theorem upload_file_to_drive_returns_none :
    (upload_file_to_drive "folder1" "a.zip" "a" ⟨2024, 6, 1, 12, 30, 45⟩
        "remoteId1").returned = none
    ∧ (upload_file_to_drive "folder1" "a.zip" "a" ⟨2024, 6, 1, 12, 30, 45⟩
        "remoteId1").returned ≠ some "remoteId1" := by
  exact ⟨rfl, by simp [upload_file_to_drive]⟩

/-- C7 (amended): for every successful call, `upload_file_to_drive`
returns no value (Python `None`); the newly created entry's identifier
appears only in the printed success line. -/
theorem upload_file_to_drive_result (folder_id path name : String) (now : DateTime)
    (created_id : String) :
    (upload_file_to_drive folder_id path name now created_id).returned = none
    ∧ ∃ line ∈ (upload_file_to_drive folder_id path name now created_id).printed,
        ∃ s, line = s ++ created_id := by
  refine ⟨rfl, ?_⟩
  refine ⟨codeArchiveName now name ++ " uploaded with succes. File ID: " ++ created_id,
    ?_, ?_⟩
  · simp [upload_file_to_drive]
  · exact ⟨codeArchiveName now name ++ " uploaded with succes. File ID: ", rfl⟩

/-! ### Timestamp format and the code-archive naming -/

theorem pad2_length (n : Nat) : (pad2 n).length = 2 := rfl

theorem pad4_length (n : Nat) : (pad4 n).length = 4 := rfl

theorem strftimeYmdHMS_length (d : DateTime) : (strftimeYmdHMS d).length = 14 := by
  simp [strftimeYmdHMS, String.length_append, pad2_length, pad4_length]

theorem digitChar_isDigit (n : Nat) : (digitChar n).isDigit = true := by
  have h : n % 10 < 10 := Nat.mod_lt n (by omega)
  unfold digitChar
  set k := n % 10 with hk
  interval_cases k <;> decide

theorem data_mk (l : List Char) : (String.mk l).data = l := rfl

theorem strftimeYmdHMS_data (d : DateTime) :
    (strftimeYmdHMS d).data =
      [digitChar (d.year / 1000), digitChar (d.year / 100), digitChar (d.year / 10),
       digitChar d.year,
       digitChar (d.month / 10), digitChar d.month,
       digitChar (d.day / 10), digitChar d.day,
       digitChar (d.hour / 10), digitChar d.hour,
       digitChar (d.minute / 10), digitChar d.minute,
       digitChar (d.second / 10), digitChar d.second] := rfl

theorem strftimeYmdHMS_isDigit (d : DateTime) :
    ∀ c ∈ (strftimeYmdHMS d).data, c.isDigit = true := by
  intro c hc
  rw [strftimeYmdHMS_data] at hc
  simp only [List.mem_cons, List.not_mem_nil, or_false] at hc
  rcases hc with rfl | rfl | rfl | rfl | rfl | rfl | rfl | rfl | rfl | rfl | rfl | rfl | rfl | rfl
  all_goals exact digitChar_isDigit _

/-- C8: every code archive the repository loop uploads is named
`code_v<YYYYMMDDHHMMSS><repoName>.zip`, and the 14-digit timestamp is
taken from the clock at that archive's own upload step inside
`upload_file_to_drive`, not earlier in the pipeline. -/
theorem code_archive_naming (clock : Nat → DateTime) (folder_id : String)
    (ids : Nat → String) (repos : List Repo) (k i : Nat) (h : i < repos.length) :
    (repoUploadNames clock folder_id ids repos k)[i]?
      = some ("code_v" ++ strftimeYmdHMS (clock (k + i)) ++ (repos.get ⟨i, h⟩).name
          ++ ".zip")
    ∧ (strftimeYmdHMS (clock (k + i))).length = 14
    ∧ ∀ c ∈ (strftimeYmdHMS (clock (k + i))).data, c.isDigit = true := by
  refine ⟨?_, strftimeYmdHMS_length _, strftimeYmdHMS_isDigit _⟩
  induction repos generalizing k i with
  | nil => simp at h
  | cons r rest ih =>
    cases i with
    | zero =>
      simp [repoUploadNames, upload_file_to_drive, codeArchiveName]
    | succ j =>
      have hj : j < rest.length := by simpa using h
      rw [repoUploadNames]
      simp only [List.getElem?_cons_succ]
      rw [show k + (j + 1) = (k + 1) + j from by omega]
      rw [show (r :: rest).get ⟨j + 1, h⟩ = rest.get ⟨j, hj⟩ from rfl]
      exact ih (k + 1) j hj

/-- Witness for C8 at a concrete clock and repository list. -/
theorem code_archive_naming_witness :
    0 < ([⟨"https://x/a.git", "proj", "main"⟩] : List Repo).length ∧
    (repoUploadNames (fun _ => ⟨2024, 6, 1, 12, 30, 45⟩) "codeFolder" (fun _ => "rid")
        [⟨"https://x/a.git", "proj", "main"⟩] 0)[0]?
      = some "code_v20240601123045proj.zip" := by
  constructor
  · decide
  · rw [(code_archive_naming (fun _ => ⟨2024, 6, 1, 12, 30, 45⟩) "codeFolder"
      (fun _ => "rid") [⟨"https://x/a.git", "proj", "main"⟩] 0 0 (by decide)).1]
    rfl

/-! ### The S3 upload contract -/

/-- C9: `upload_file_to_s3` returns `True` exactly on success, returns
`False` (rather than raising) exactly for the two anticipated failure
kinds — the local file is missing, or the credentials are rejected —
and every other failure propagates out of the function. -/
theorem s3_upload_error_contract (r : S3CallResult) :
    (upload_file_to_s3 r = Except.ok true ↔ r = S3CallResult.success)
    ∧ (upload_file_to_s3 r = Except.ok false
        ↔ (r = S3CallResult.fileNotFoundError ∨ r = S3CallResult.noCredentialsError))
    ∧ (∀ msg, upload_file_to_s3 r = Except.error msg ↔ r = S3CallResult.otherError msg) := by
  cases r <;> simp [upload_file_to_s3]

/-! ### Local cleanup -/

theorem clearsEntry_iff (project_name f : String) :
    clearsEntry project_name f = true
      ↔ (pyEndsWith f ".zip" = true ∨ pyEndsWith f project_name = true) := by
  unfold clearsEntry
  by_cases h1 : pyEndsWith f ".zip" = true
  · simp [h1]
  · rw [Bool.not_eq_true] at h1
    by_cases h2 : pyEndsWith f project_name = true
    · simp [h1, h2]
    · rw [Bool.not_eq_true] at h2
      simp [h1, h2]

theorem clearsEntry_eq_false_iff (project_name f : String) :
    clearsEntry project_name f = false
      ↔ (pyEndsWith f ".zip" = false ∧ pyEndsWith f project_name = false) := by
  rw [← Bool.not_eq_true, clearsEntry_iff]
  constructor
  · intro h
    exact ⟨Bool.not_eq_true _ ▸ Bool.eq_false_iff.mpr (fun hz => h (Or.inl hz)),
           Bool.eq_false_iff.mpr (fun hp => h (Or.inr hp))⟩
  · rintro ⟨hz, hp⟩ (hc | hc)
    · rw [hz] at hc
      cases hc
    · rw [hp] at hc
      cases hc

/-- C4 counterexample: with `project_name = "doc"` the sibling directory
entry `"mydoc"` — whose name is not `"doc"` and does not end in `".zip"`
— is nevertheless removed by `clear_local_folder`, because the code
tests `file.endswith(project_name)` rather than name equality. -/
theorem clear_local_folder_counterexample :
    (clear_local_folder ["mydoc"] "doc").1 = ["mydoc"]
    ∧ "mydoc" ≠ "doc"
    ∧ pyEndsWith "mydoc" ".zip" = false := by
  refine ⟨by decide, by decide, by decide⟩

/-- C4 (amended): for every state of the working directory,
`clear_local_folder project_name` removes exactly the entries whose name
ends in `".zip"` together with the entries whose name ends with
`project_name` (not only the single directory named exactly
`project_name`), and leaves precisely the other entries untouched. -/
theorem clear_local_folder_removes_by_suffix (entries : List String)
    (project_name f : String) :
    (f ∈ (clear_local_folder entries project_name).1
      ↔ f ∈ entries ∧ (pyEndsWith f ".zip" = true ∨ pyEndsWith f project_name = true))
    ∧ (f ∈ (clear_local_folder entries project_name).2
      ↔ f ∈ entries ∧ (pyEndsWith f ".zip" = false ∧ pyEndsWith f project_name = false)) := by
  unfold clear_local_folder
  constructor
  · simp only [List.mem_filter, clearsEntry_iff]
  · simp only [List.mem_filter, Bool.not_eq_true', clearsEntry_eq_false_iff]

/-! ### Clearing the remote code folder -/

/-- C5 counterexample: a folder with two children listed one per page is
not emptied by `clear_folder`: only the single retrieved page is
deleted, and the second child remains. -/
theorem clear_folder_counterexample :
    clear_folder [⟨"a", "x.zip"⟩, ⟨"b", "y.zip"⟩] 1 = [⟨"b", "y.zip"⟩]
    ∧ ([(⟨"b", "y.zip"⟩ : RemoteFile)] : List RemoteFile) ≠ ([] : List RemoteFile) := by
  refine ⟨rfl, by decide⟩

/-- C5 (amended): `clear_folder` deletes exactly the children returned
in the single listing page it retrieves (the first `page_size`
children); when the folder holds more children than one listing page
returns, the remaining children are left in the folder. -/
theorem clear_folder_first_page_only (children : List RemoteFile) (page_size : Nat)
    (h : (children.map RemoteFile.id).Nodup) :
    clear_folder children page_size = children.drop page_size := by
  unfold clear_folder listOnePage
  have hsplit : children.take page_size ++ children.drop page_size = children :=
    List.take_append_drop page_size children
  rw [show children.filter
        (fun c => !(((children.take page_size).map RemoteFile.id).contains c.id))
      = (children.take page_size ++ children.drop page_size).filter
        (fun c => !(((children.take page_size).map RemoteFile.id).contains c.id))
    from by rw [hsplit]]
  rw [List.filter_append]
  have hnd : ((children.take page_size).map RemoteFile.id).Disjoint
      ((children.drop page_size).map RemoteFile.id) := by
    have h2 := h
    rw [← hsplit, List.map_append] at h2
    exact (List.nodup_append.mp h2).2.2
  have h1 : (children.take page_size).filter
      (fun c => !(((children.take page_size).map RemoteFile.id).contains c.id)) = [] := by
    rw [List.filter_eq_nil_iff]
    intro c hc
    simp only [Bool.not_eq_true', Bool.not_eq_false]
    rw [List.contains, List.elem_iff]
    exact List.mem_map.mpr ⟨c, hc, rfl⟩
  have h2 : (children.drop page_size).filter
      (fun c => !(((children.take page_size).map RemoteFile.id).contains c.id))
      = children.drop page_size := by
    rw [List.filter_eq_self]
    intro c hc
    simp only [Bool.not_eq_true']
    rw [← Bool.not_eq_true, List.contains, List.elem_iff]
    intro hcin
    exact hnd hcin (List.mem_map.mpr ⟨c, hc, rfl⟩)
  rw [h1, h2, List.nil_append]

/-- Witness for C5 (amended) at a concrete three-child folder with page
size two: the third child survives. -/
theorem clear_folder_first_page_only_witness :
    (([⟨"a", "x"⟩, ⟨"b", "y"⟩, ⟨"c", "z"⟩] : List RemoteFile).map RemoteFile.id).Nodup ∧
    clear_folder [⟨"a", "x"⟩, ⟨"b", "y"⟩, ⟨"c", "z"⟩] 2
      = ([⟨"a", "x"⟩, ⟨"b", "y"⟩, ⟨"c", "z"⟩] : List RemoteFile).drop 2 :=
  ⟨by decide, clear_folder_first_page_only [⟨"a", "x"⟩, ⟨"b", "y"⟩, ⟨"c", "z"⟩] 2 (by decide)⟩

end DocBackup
